import Mathlib

/-!
Verification of the data-preparation layer of the
Visual-Manipulation-Relationship-Network training pipeline
(`roi_data_layer/roibatchLoader.py`).

Coordinates are modelled as rationals (the code works on float tensors whose
annotation values are exact), image pixels as an opaque 3-channel value, and
each tensor of rows as a Lean list of rows.  Randomness (`np.random.choice`
over a python `range`) is modelled by returning the full list of equally
likely outcomes; a singleton list means the value is deterministic.  Python
exceptions are modelled with `Except` / `Option`.
-/

/-- One ground-truth box row: 4 coordinates (x1, y1, x2, y2) and a label,
mirroring the N×5 `gt_boxes` tensor. -/
structure Box where
  x1 : ℚ
  y1 : ℚ
  x2 : ℚ
  y2 : ℚ
  label : ℚ
deriving DecidableEq, Repr

/-- The all-zero box row, as produced by `torch.FloatTensor(...).zero_()`. -/
def Box.zero : Box := ⟨0, 0, 0, 0, 0⟩

/-- The mask `(gt_boxes[:, 0] == gt_boxes[:, 2]) | (gt_boxes[:, 1] == gt_boxes[:, 3])`
for a single row: a degenerate (zero-width or zero-height) box. -/
def Box.notKeep (b : Box) : Bool := b.x1 == b.x2 || b.y1 == b.y2

/-- `objdetRoibatchLoader._boxPostProcess`: drop degenerate boxes, keep at most
`maxNumBox` survivors (first ones, original order), copy them into the prefix of
a zero-initialised `maxNumBox`-row tensor.  Returns the padded tensor and the
kept indices. -/
def boxPostProcess (maxNumBox : Nat) (gtBoxes : List Box) : List Box × List Nat :=
  let notKeep := gtBoxes.map Box.notKeep
  let keepAll := (List.range gtBoxes.length).filter (fun i => notKeep.getD i true == false)
  let numBoxes := min keepAll.length maxNumBox
  let keep := keepAll.take numBoxes
  let kept := keep.map (fun i => gtBoxes.getD i Box.zero)
  (kept ++ List.replicate (maxNumBox - numBoxes) Box.zero, keep)

/-- `graspdetRoibatchLoader._graspPostProcess`: truncate the M×8 grasp tensor to
the first `min(M, max_num_grasp)` rows, zero-pad up to `max_num_grasp` rows, and
truncate/pad the optional index vector in lockstep. -/
def graspPostProcess (maxNumGrasp : Nat) (gtGrasps : List (List ℚ))
    (gtGraspInds : Option (List ℚ)) : List (List ℚ) × Nat × Option (List ℚ) :=
  let numGrasps := min gtGrasps.length maxNumGrasp
  let padded := gtGrasps.take numGrasps
    ++ List.replicate (maxNumGrasp - numGrasps) (List.replicate 8 (0 : ℚ))
  match gtGraspInds with
  | some inds =>
      (padded, numGrasps,
        some (inds.take numGrasps ++ List.replicate (maxNumGrasp - numGrasps) (0 : ℚ)))
  | none => (padded, numGrasps, none)

/-- Modelled from the spec: the numeric relationship codes `cfg.VMRN.FATHER`,
`cfg.VMRN.CHILD` and `cfg.VMRN.NOREL` live in the excluded configuration
module (`model.utils.config`); the spec only requires three distinct codes,
all distinct from the `unset = 0` marker. -/
def FATHER : ℤ := 1

/-- Modelled from the spec: see `FATHER`. -/
def CHILD : ℤ := 2

/-- Modelled from the spec: see `FATHER`. -/
def NOREL : ℤ := 3

/-- Write a single entry of the relationship matrix (`rel_mat[o1, o2] = v`). -/
def matUpdate (M : Nat → Nat → ℤ) (i j : Nat) (v : ℤ) : Nat → Nat → ℤ :=
  fun a b => if a = i ∧ b = j then v else M a b

/-- The value `_genRelMat` writes at `(o1, o2)` when the pair is processed:
`FATHER` if `o2`'s node index is among `o1`'s children, `CHILD` if it is among
`o1`'s fathers, `NOREL` otherwise. -/
def relWrite (objList : List Nat) (nodeInds : Nat → ℤ)
    (childLists parentLists : Nat → List ℤ) (o1 o2 : Nat) : ℤ :=
  if nodeInds (objList.getD o2 0) ∈ childLists (objList.getD o1 0) then FATHER
  else if nodeInds (objList.getD o2 0) ∈ parentLists (objList.getD o1 0) then CHILD
  else NOREL

/-- One inner-loop iteration of `_genRelMat` (fixed `o1`, one value of `o2`):
skip when the node indices coincide or the entry is already nonzero, otherwise
write `relWrite`. -/
def relStep (objList : List Nat) (nodeInds : Nat → ℤ)
    (childLists parentLists : Nat → List ℤ) (o1 : Nat)
    (M : Nat → Nat → ℤ) (o2 : Nat) : Nat → Nat → ℤ :=
  if nodeInds (objList.getD o2 0) = nodeInds (objList.getD o1 0) ∨ M o1 o2 ≠ 0 then M
  else matUpdate M o1 o2 (relWrite objList nodeInds childLists parentLists o1 o2)

/-- `vmrdetRoibatchLoader._genRelMat`: fill the relationship matrix by the
double loop over `range(num_boxes)`.  The matrix is modelled as a total
function that is zero outside the written region. -/
def genRelMat (objList : List Nat) (nodeInds : Nat → ℤ)
    (childLists parentLists : Nat → List ℤ) : Nat → Nat → ℤ :=
  (List.range objList.length).foldl
    (fun M o1 =>
      (List.range objList.length).foldl
        (relStep objList nodeInds childLists parentLists o1) M)
    (fun _ _ => 0)

/-- Closed form of a `_genRelMat` entry inside the written region. -/
def relEntry (objList : List Nat) (nodeInds : Nat → ℤ)
    (childLists parentLists : Nat → List ℤ) (o1 o2 : Nat) : ℤ :=
  if nodeInds (objList.getD o2 0) = nodeInds (objList.getD o1 0) then 0
  else relWrite objList nodeInds childLists parentLists o1 o2

/-- Object list of the C2 counterexample: two objects, with nodes 0 and 1
each recorded as a child (and hence also a parent) of the other. -/
def cycObjList : List Nat := [0, 1]

/-- Node-index map of the C2 counterexample. -/
def cycNodeInds : Nat → ℤ := fun n => (n : ℤ)

/-- Child lists of the C2 counterexample: a symmetric two-cycle. -/
def cycChildLists : Nat → List ℤ := fun a => if a = 0 then [1] else if a = 1 then [0] else []

/-- Parent lists of the C2 counterexample, consistent with `cycChildLists`. -/
def cycParentLists : Nat → List ℤ := fun a => if a = 0 then [1] else if a = 1 then [0] else []

/-- Object list of the C2 witness: a simple two-object chain. -/
def chainObjList : List Nat := [0, 1]

/-- Node-index map of the C2 witness. -/
def chainNodeInds : Nat → ℤ := fun n => (n : ℤ)

/-- Child lists of the C2 witness: node 1 is a child of node 0. -/
def chainChildLists : Nat → List ℤ := fun a => if a = 0 then [1] else []

/-- Parent lists of the C2 witness: node 0 is the parent of node 1. -/
def chainParentLists : Nat → List ℤ := fun a => if a = 1 then [0] else []

/-- A pixel: the 3 float channels of the H×W×3 image tensors.  The crop/pad
operations never inspect pixel values. -/
abbrev Pix := ℚ × ℚ × ℚ

/-- The zero pixel produced by `torch.FloatTensor(...).zero_()`. -/
def zeroPix : Pix := ((0 : ℚ), (0 : ℚ), (0 : ℚ))

/-- python `int(...)` applied to an exact rational: truncation toward zero. -/
def qtrunc (q : ℚ) : ℤ := Int.tdiv q.num (q.den : ℤ)

/-- `int(np.floor(...))` on an exact rational. -/
def qfloor (q : ℚ) : ℤ := Rat.floor q

/-- `int(np.ceil(...))` on an exact rational. -/
def qceil (q : ℚ) : ℤ := -Rat.floor (-q)

/-- The errors `_cropImage` can raise: the explicit `raise RuntimeError` on a
negative minimum coordinate, and the `ValueError` that `np.random.choice`
raises on an empty `range`. -/
inductive CropErr where
  | negCoord
  | emptyRange
deriving DecidableEq, Repr

/-- python `range(a, b)` as the list of integers `a, a+1, …, b-1`. -/
def intRange (a b : ℤ) : List ℤ := (List.range (b - a).toNat).map (fun k => a + Int.ofNat k)

/-- The start-offset logic of `_cropImage` on the cropped axis
(`roibatchLoader.py` lines 230-245 and, symmetrically, 257-272): `minC`/`maxC`
are the int-cast extrema of the annotation coordinates along that axis,
`trimSize` the already-clamped crop length and `dimLen` the image length on
that axis.  The result is the list of equally probable start offsets (a
singleton when no randomness is involved), or the raised error. -/
def cropOffsetChoices (minC maxC trimSize dimLen : ℤ) : Except CropErr (List ℤ) :=
  if 0 < minC then
    if maxC - minC + 1 - trimSize < 0 then
      let sMin := max (maxC - trimSize) 0
      let sMax := min minC (dimLen - trimSize)
      if sMin = sMax then Except.ok [sMin]
      else if (intRange sMin sMax).isEmpty then Except.error CropErr.emptyRange
      else Except.ok (intRange sMin sMax)
    else
      let sAdd := Int.tdiv (maxC - minC + 1 - trimSize) 2
      if sAdd = 0 then Except.ok [minC]
      else if (intRange minC (minC + sAdd)).isEmpty then Except.error CropErr.emptyRange
      else Except.ok (intRange minC (minC + sAdd))
  else if minC < 0 then Except.error CropErr.negCoord
  else Except.ok [0]

/-- The set of valid start offsets in the sense of claim C3: the crop window
`[s, s + trimSize - 1]` contains the whole annotation span `[minC, maxC]` and
lies inside the image `[0, dimLen)`. -/
def validStarts (minC maxC trimSize dimLen : ℤ) : List ℤ :=
  intRange (max (maxC - trimSize + 1) 0) (min minC (dimLen - trimSize) + 1)

/-- The flattened values of the slice `t[:, :-1][:, par::2]` (`par ∈ {0, 1}`):
every entry at index ≡ `par` (mod 2) of each row without its last entry. -/
def sliceCoords (par : Nat) (annots : List (List ℚ)) : List ℚ :=
  (annots.map (fun row =>
    row.dropLast.enum.filterMap (fun p => if p.1 % 2 = par then some p.2 else none))).flatten

/-- `torch.min` over a flattened tensor (0 on the empty list, where the real
code would raise instead). -/
def listMin : List ℚ → ℚ
  | [] => 0
  | x :: xs => xs.foldl min x

/-- `torch.max` over a flattened tensor. -/
def listMax : List ℚ → ℚ
  | [] => 0
  | x :: xs => xs.foldl max x

/-- The clamped `trim_size` of the `target_ratio < 1` branch of `_cropImage`:
`int(np.floor(data_width / target_ratio))`, clamped to `data_height`. -/
def trimH (data : List (List Pix)) (targetRatio : ℚ) : ℤ :=
  if (data.length : ℤ) < qfloor ((((data.headD []).length : ℕ) : ℚ) / targetRatio)
  then (data.length : ℤ)
  else qfloor ((((data.headD []).length : ℕ) : ℚ) / targetRatio)

/-- The clamped `trim_size` of the `target_ratio ≥ 1` branch of `_cropImage`:
`int(np.ceil(data_height * target_ratio))`, clamped to `data_width`. -/
def trimW (data : List (List Pix)) (targetRatio : ℚ) : ℤ :=
  if ((data.headD []).length : ℤ) < qceil (((data.length : ℕ) : ℚ) * targetRatio)
  then ((data.headD []).length : ℤ)
  else qceil (((data.length : ℕ) : ℚ) * targetRatio)

/-- `mulInSizeRoibatchLoader._cropImage`: crop the height (if
`target_ratio < 1`) or the width (otherwise) down to the clamped trim size,
choosing the start offset from the annotation extrema.  The batch dimension of
the 1×H×W×3 tensor is dropped; the result is every equally probable
`(cropped image, (x_s, y_s))` outcome, or the raised error. -/
def cropImage (data : List (List Pix)) (annots : List (List ℚ)) (targetRatio : ℚ) :
    Except CropErr (List (List (List Pix) × ℤ × ℤ)) :=
  if targetRatio < 1 then
    Except.map
      (fun offs => offs.map
        (fun yS => ((data.drop yS.toNat).take (trimH data targetRatio).toNat, ((0 : ℤ), yS))))
      (cropOffsetChoices (qtrunc (listMin (sliceCoords 1 annots)))
        (qtrunc (listMax (sliceCoords 1 annots))) (trimH data targetRatio) (data.length : ℤ))
  else
    Except.map
      (fun offs => offs.map
        (fun xS => (data.map (fun r => (r.drop xS.toNat).take (trimW data targetRatio).toNat),
          (xS, (0 : ℤ)))))
      (cropOffsetChoices (qtrunc (listMin (sliceCoords 0 annots)))
        (qtrunc (listMax (sliceCoords 0 annots))) (trimW data targetRatio)
        ((data.headD []).length : ℤ))

/-- The `im_info` row: final image height and width and the two upstream
resize scale factors. -/
structure ImInfo where
  h : ℚ
  w : ℚ
  scaleY : ℚ
  scaleX : ℚ
deriving DecidableEq, Repr

/-- `mulInSizeRoibatchLoader._paddingImage`: zero-pad the height (ratio < 1)
or the width (ratio > 1) up to the exact target ratio, updating `im_info`;
at ratio == 1 crop to the top-left `min(H, W)` square instead.  `none` models
the shape error python would raise if the target size were smaller than the
data. -/
def paddingImage (data : List (List Pix)) (imInfo : ImInfo) (targetRatio : ℚ) :
    Option (List (List Pix) × ImInfo) :=
  let dataHeight := data.length
  let dataWidth := (data.headD []).length
  if targetRatio < 1 then
    let newH := (qceil ((dataWidth : ℚ) / targetRatio)).toNat
    if dataHeight ≤ newH then
      some (data ++ List.replicate (newH - dataHeight) (List.replicate dataWidth zeroPix),
        { imInfo with h := (newH : ℚ) })
    else none
  else if 1 < targetRatio then
    let newW := (qceil ((dataHeight : ℚ) * targetRatio)).toNat
    if dataWidth ≤ newW then
      some (data.map (fun r => r ++ List.replicate (newW - dataWidth) zeroPix),
        { imInfo with w := (newW : ℚ) })
    else none
  else
    let trimSize := min dataHeight dataWidth
    some ((data.take trimSize).map (fun r => r.take trimSize),
      { imInfo with h := (trimSize : ℚ), w := (trimSize : ℚ) })

/-- Helper for the slice assignment `tensor[a:(b+1)] = v`, walking the list
with its running index. -/
def setRangeFrom (i a b : Nat) (v : ℚ) : List ℚ → List ℚ
  | [] => []
  | x :: xs => (if a ≤ i ∧ i ≤ b then v else x) :: setRangeFrom (i + 1) a b v xs

/-- The slice assignment `tensor[a:(b+1)] = v` on a 1-D float tensor. -/
def setRange (l : List ℚ) (a b : Nat) (v : ℚ) : List ℚ := setRangeFrom 0 a b v l

/-- The per-index aspect-ratio batch plan computed in
`mulInSizeRoibatchLoader.__init__` (`self.ratio_list_batch`): for each chunk
of `batch_size` consecutive indices pick the leftmost ratio if the chunk's
rightmost ratio is < 1, the rightmost ratio if its leftmost ratio is > 1, and
1 otherwise, then broadcast it over the chunk. -/
def ratioListBatch (ratioList : List ℚ) (ratioIndexLen batchSize : Nat) : List ℚ :=
  let dataSize := ratioList.length
  let numBatch := (ratioIndexLen + batchSize - 1) / batchSize
  (List.range numBatch).foldl
    (fun acc i =>
      let leftIdx := i * batchSize
      let rightIdx := min ((i + 1) * batchSize - 1) (dataSize - 1)
      let target :=
        if ratioList.getD rightIdx 0 < 1 then ratioList.getD leftIdx 0
        else if 1 < ratioList.getD leftIdx 0 then ratioList.getD rightIdx 0
        else 1
      setRange acc leftIdx rightIdx target)
    (List.replicate dataSize 0)

/-- The single target ratio picked for chunk `i` of the batch plan. -/
def chunkTarget (ratioList : List ℚ) (batchSize i : Nat) : ℚ :=
  let rightIdx := min ((i + 1) * batchSize - 1) (ratioList.length - 1)
  if ratioList.getD rightIdx 0 < 1 then ratioList.getD (i * batchSize) 0
  else if 1 < ratioList.getD (i * batchSize) 0 then ratioList.getD rightIdx 0
  else 1

/-- Helper for the slice update of `_cropGrasp`: walk a row with its running
index, subtracting `c` at every index ≡ `par` (mod 2) other than the last
index of the row. -/
def shiftRowFrom (i len par : Nat) (c : ℚ) : List ℚ → List ℚ
  | [] => []
  | x :: xs =>
      (if i + 1 < len ∧ i % 2 = par then x - c else x) :: shiftRowFrom (i + 1) len par c xs

/-- The in-place slice update `t[:, :-1][:, par::2] -= c` of `_cropGrasp` on a
single row: subtract `c` from every entry whose index is ≡ `par` (mod 2) and
is not the last index of the row. -/
def shiftRow (par : Nat) (c : ℚ) (row : List ℚ) : List ℚ := shiftRowFrom 0 row.length par c row

/-- One summand of the mask sums of `_cropGrasp`: how many entries at index
≡ `par` (mod 2) lie strictly inside `(0, hi)`. -/
def countInside (par : Nat) (hi : ℚ) (i : Nat) : List ℚ → Nat
  | [] => 0
  | x :: xs => (if i % 2 = par ∧ 0 < x ∧ x < hi then 1 else 0) + countInside par hi (i + 1) xs

/-- The keep mask of `_cropGrasp` for one (already shifted) row: all 4
even-indexed entries strictly inside `(0, data.size(1))` and all 4 odd-indexed
entries strictly inside `(0, data.size(0))`. -/
def graspKeep (dataHeight dataWidth : Nat) (row : List ℚ) : Bool :=
  (countInside 0 ((dataWidth : ℕ) : ℚ) 0 row == 4)
    && (countInside 1 ((dataHeight : ℕ) : ℚ) 0 row == 4)

instance {ε α : Type} [DecidableEq ε] [DecidableEq α] : DecidableEq (Except ε α) := fun x y =>
  match x, y with
  | Except.ok a, Except.ok b =>
      if h : a = b then isTrue (by rw [h]) else isFalse (fun hh => h (Except.ok.inj hh))
  | Except.error e, Except.error f =>
      if h : e = f then isTrue (by rw [h]) else isFalse (fun hh => h (Except.error.inj hh))
  | Except.ok _, Except.error _ => isFalse (fun hh => Except.noConfusion hh)
  | Except.error _, Except.ok _ => isFalse (fun hh => Except.noConfusion hh)

/-- `graspMulInSizeRoibatchLoader._cropGrasp`: shift the grasp coordinates by
the crop offset (via the `[:, :-1]` slices of the source), then drop every
grasp with any tested coordinate on or outside the image boundary.  Returns
the kept rows, the keep mask, and the filtered index vector when supplied. -/
def cropGrasp (data : List (List Pix)) (coordS : ℤ × ℤ) (gtGrasps : List (List ℚ))
    (gtGraspInds : Option (List ℚ)) :
    List (List ℚ) × List Bool × Option (List ℚ) :=
  let shifted := gtGrasps.map
    (fun row => shiftRow 0 ((coordS.1 : ℚ)) (shiftRow 1 ((coordS.2 : ℚ)) row))
  let keep := shifted.map (graspKeep data.length (data.headD []).length)
  let kept := (shifted.zip keep).filterMap (fun p => if p.2 then some p.1 else none)
  match gtGraspInds with
  | some inds =>
      (kept, keep, some ((inds.zip keep).filterMap (fun p => if p.2 then some p.1 else none)))
  | none => (kept, keep, none)

/-- A concrete all-zero `n × n` image. -/
def squareImg (n : Nat) : List (List Pix) := List.replicate n (List.replicate n zeroPix)

/-- For an in-range index, `getD` through a `map` evaluates the function at the
underlying element. -/
theorem getD_map_lt {α β : Type} (f : α → β) (l : List α) (i : Nat)
    (h : i < l.length) (d : β) (d' : α) :
    (l.map f).getD i d = f (l.getD i d') := by
  induction l generalizing i with
  | nil => simp at h
  | cons a t ih =>
    cases i with
    | zero => simp
    | succ n =>
      simp only [List.map_cons, List.getD_cons_succ]
      exact ih n (by simpa using h)

/-- Selecting the elements of `l` whose index satisfies a predicate on the
element is the same as filtering `l` itself. -/
theorem range_filter_getD_map {α : Type} (p : α → Bool) (d : α) (l : List α) :
    (((List.range l.length).filter (fun i => p (l.getD i d)))).map (fun i => l.getD i d)
      = l.filter p := by
  induction l with
  | nil => simp
  | cons a t ih =>
    have hlen : (a :: t).length = t.length + 1 := rfl
    have hfun1 : ((fun i => p ((a :: t).getD i d)) ∘ Nat.succ) = fun i => p (t.getD i d) := by
      funext i; simp [Function.comp, List.getD_cons_succ]
    have hfun2 : ((fun i => (a :: t).getD i d) ∘ Nat.succ) = fun i => t.getD i d := by
      funext i; simp [List.getD_cons_succ]
    have hmapfilter :
        ((List.range t.length).map Nat.succ).filter
            (fun i => p ((a :: t).getD i d))
          = ((List.range t.length).filter (fun i => p (t.getD i d))).map Nat.succ := by
      rw [List.filter_map, hfun1]
    rw [hlen, List.range_succ_eq_map, List.filter_cons]
    by_cases hp : p a
    · rw [List.getD_cons_zero, hp, if_pos rfl, List.map_cons, hmapfilter, List.map_map,
        hfun2, ih, List.filter_cons, if_pos hp, List.getD_cons_zero]
    · rw [List.getD_cons_zero]
      rw [if_neg (by simp [hp])]
      rw [hmapfilter, List.map_map, hfun2, ih, List.filter_cons, if_neg (by simp [hp])]

example : boxPostProcess 3 [⟨0,0,0,5,1⟩, ⟨0,0,4,5,1⟩, ⟨1,2,1,2,7⟩, ⟨0,1,2,3,4⟩] =
    ([⟨0,0,4,5,1⟩, ⟨0,1,2,3,4⟩, Box.zero], [1, 3]) := by decide

/-- Truncating at the length-clamped bound is the same as truncating at the
bound itself. -/
theorem take_min_length {α : Type} (l : List α) (m : Nat) :
    l.take (min l.length m) = l.take m := by
  rcases Nat.le_total l.length m with h | h
  · rw [Nat.min_eq_left h, List.take_length, List.take_of_length_le h]
  · rw [Nat.min_eq_right h]

/-- Claim C1: `_boxPostProcess` returns a padded tensor of exactly `max_num_box`
rows whose prefix of length `min(#non-degenerate, max_num_box)` consists of the
non-degenerate boxes (x1 ≠ x2 and y1 ≠ y2) in their original relative order,
with all remaining rows zero, and the keep indices are exactly the (increasing)
indices of those surviving boxes. -/
theorem C1_boxPostProcess_spec (maxNumBox : Nat) (B : List Box) :
    (boxPostProcess maxNumBox B).1.length = maxNumBox ∧
    (boxPostProcess maxNumBox B).1
      = (B.filter (fun b => !b.notKeep)).take maxNumBox
        ++ List.replicate
            (maxNumBox - min (B.filter (fun b => !b.notKeep)).length maxNumBox) Box.zero ∧
    (boxPostProcess maxNumBox B).2.map (fun i => B.getD i Box.zero)
      = (B.filter (fun b => !b.notKeep)).take maxNumBox ∧
    List.Pairwise (fun i j : Nat => i < j) (boxPostProcess maxNumBox B).2 ∧
    ∀ i ∈ (boxPostProcess maxNumBox B).2, i < B.length ∧ (B.getD i Box.zero).notKeep = false := by
  have hpred : ∀ i ∈ List.range B.length,
      ((B.map Box.notKeep).getD i true == false) = (!(B.getD i Box.zero).notKeep) := by
    intro i hi
    rw [List.mem_range] at hi
    rw [getD_map_lt Box.notKeep B i hi true Box.zero]
    cases h : (B.getD i Box.zero).notKeep <;> simp [h]
  have hkeepAll :
      (List.range B.length).filter (fun i => (B.map Box.notKeep).getD i true == false)
        = (List.range B.length).filter (fun i => !(B.getD i Box.zero).notKeep) :=
    List.filter_congr hpred
  have hmap :
      ((List.range B.length).filter (fun i => !(B.getD i Box.zero).notKeep)).map
        (fun i => B.getD i Box.zero) = B.filter (fun b => !b.notKeep) :=
    range_filter_getD_map (fun b => !b.notKeep) Box.zero B
  have hKA2 :
      ((List.range B.length).filter (fun i => (B.map Box.notKeep).getD i true == false)).map
        (fun i => B.getD i Box.zero) = B.filter (fun b => !b.notKeep) := by
    rw [hkeepAll]; exact hmap
  have hlenKA :
      ((List.range B.length).filter
        (fun i => (B.map Box.notKeep).getD i true == false)).length
        = (B.filter (fun b => !b.notKeep)).length := by
    have := congrArg List.length hKA2
    simpa using this
  have hsnd : (boxPostProcess maxNumBox B).2
      = ((List.range B.length).filter
          (fun i => (B.map Box.notKeep).getD i true == false)).take
        (min ((List.range B.length).filter
          (fun i => (B.map Box.notKeep).getD i true == false)).length maxNumBox) := rfl
  have hfst : (boxPostProcess maxNumBox B).1
      = ((boxPostProcess maxNumBox B).2.map (fun i => B.getD i Box.zero))
        ++ List.replicate
            (maxNumBox - min ((List.range B.length).filter
              (fun i => (B.map Box.notKeep).getD i true == false)).length maxNumBox)
            Box.zero := rfl
  have hkeepmap : (boxPostProcess maxNumBox B).2.map (fun i => B.getD i Box.zero)
      = (B.filter (fun b => !b.notKeep)).take maxNumBox := by
    rw [hsnd, List.map_take, hKA2, hlenKA, take_min_length]
  refine ⟨?_, ?_, hkeepmap, ?_, ?_⟩
  · rw [hfst, List.length_append, hkeepmap, List.length_take, List.length_replicate, hlenKA]
    omega
  · rw [hfst, hkeepmap, hlenKA]
  · rw [hsnd]
    exact ((List.pairwise_lt_range B.length).filter _).sublist (List.take_sublist _ _)
  · intro i hi
    rw [hsnd] at hi
    have hi' := (List.take_sublist _ _).subset hi
    have := List.mem_filter.mp hi'
    rcases this with ⟨hir, hp⟩
    rw [List.mem_range] at hir
    refine ⟨hir, ?_⟩
    have := hpred i (List.mem_range.mpr hir)
    rw [this] at hp
    cases h : (B.getD i Box.zero).notKeep
    · rfl
    · rw [h] at hp; simp at hp

/-- The written relationship value is one of the three nonzero codes. -/
theorem relWrite_ne_zero (objList : List Nat) (nodeInds : Nat → ℤ)
    (childLists parentLists : Nat → List ℤ) (o1 o2 : Nat) :
    relWrite objList nodeInds childLists parentLists o1 o2 ≠ 0 := by
  unfold relWrite FATHER CHILD NOREL
  split
  · decide
  · split <;> decide


/-- `relStep` leaves every cell other than `(o1, o2)` unchanged. -/
theorem relStep_apply_other (objList : List Nat) (nodeInds : Nat → ℤ)
    (childLists parentLists : Nat → List ℤ) (o1 o2 : Nat)
    (M : Nat → Nat → ℤ) (a b : Nat) (h : ¬(a = o1 ∧ b = o2)) :
    relStep objList nodeInds childLists parentLists o1 M o2 a b = M a b := by
  unfold relStep matUpdate
  split
  · rfl
  · simp only []
    exact if_neg h

/-- Value of `relStep` at its own cell `(o1, o2)`. -/
theorem relStep_apply_self (objList : List Nat) (nodeInds : Nat → ℤ)
    (childLists parentLists : Nat → List ℤ) (o1 o2 : Nat) (M : Nat → Nat → ℤ) :
    relStep objList nodeInds childLists parentLists o1 M o2 o1 o2
      = if nodeInds (objList.getD o2 0) = nodeInds (objList.getD o1 0) ∨ M o1 o2 ≠ 0
        then M o1 o2
        else relWrite objList nodeInds childLists parentLists o1 o2 := by
  unfold relStep matUpdate
  split
  · rfl
  · simp

/-- The inner loop of `_genRelMat` never touches rows other than `o1`. -/
theorem relStep_foldl_off (objList : List Nat) (nodeInds : Nat → ℤ)
    (childLists parentLists : Nat → List ℤ) (o1 : Nat) (L : List Nat)
    (M : Nat → Nat → ℤ) (a b : Nat) (h : a ≠ o1) :
    (L.foldl (relStep objList nodeInds childLists parentLists o1) M) a b = M a b := by
  induction L generalizing M with
  | nil => rfl
  | cons c L ih =>
    rw [List.foldl_cons, ih,
      relStep_apply_other objList nodeInds childLists parentLists o1 c M a b
        (fun hh => h hh.1)]

/-- Closed form of the inner loop of `_genRelMat` on row `o1`: a cell is
written once (with `relWrite`) exactly when its column is visited while the
cell is still zero and the node indices differ. -/
theorem relStep_foldl_row (objList : List Nat) (nodeInds : Nat → ℤ)
    (childLists parentLists : Nat → List ℤ) (o1 : Nat) (L : List Nat)
    (M : Nat → Nat → ℤ) (b : Nat) :
    (L.foldl (relStep objList nodeInds childLists parentLists o1) M) o1 b
      = if b ∈ L ∧ M o1 b = 0
            ∧ nodeInds (objList.getD b 0) ≠ nodeInds (objList.getD o1 0)
        then relWrite objList nodeInds childLists parentLists o1 b
        else M o1 b := by
  induction L generalizing M with
  | nil => simp
  | cons c L ih =>
    rw [List.foldl_cons, ih]
    by_cases hbc : b = c
    · subst hbc
      by_cases hind : nodeInds (objList.getD b 0) = nodeInds (objList.getD o1 0)
      · have hP : relStep objList nodeInds childLists parentLists o1 M b = M := by
          unfold relStep
          rw [if_pos (Or.inl hind)]
        rw [hP, if_neg (fun h => h.2.2 hind), if_neg (fun h => h.2.2 hind)]
      · by_cases hz : M o1 b = 0
        · have hP : relStep objList nodeInds childLists parentLists o1 M b o1 b
              = relWrite objList nodeInds childLists parentLists o1 b := by
            rw [relStep_apply_self, if_neg (not_or.mpr ⟨hind, fun hh => hh hz⟩)]
          rw [if_neg (fun h =>
            relWrite_ne_zero objList nodeInds childLists parentLists o1 b (hP ▸ h.2.1))]
          rw [hP, if_pos ⟨List.mem_cons_self b L, hz, hind⟩]
        · have hP : relStep objList nodeInds childLists parentLists o1 M b = M := by
            unfold relStep
            rw [if_pos (Or.inr hz)]
          rw [hP, if_neg (fun h => hz h.2.1), if_neg (fun h => hz h.2.1)]
    · have hP : relStep objList nodeInds childLists parentLists o1 M c o1 b = M o1 b :=
        relStep_apply_other objList nodeInds childLists parentLists o1 c M o1 b
          (fun hh => hbc hh.2)
      rw [hP]
      by_cases hmem : b ∈ L
      · by_cases hq : M o1 b = 0
            ∧ nodeInds (objList.getD b 0) ≠ nodeInds (objList.getD o1 0)
        · rw [if_pos ⟨hmem, hq.1, hq.2⟩, if_pos ⟨List.mem_cons_of_mem c hmem, hq.1, hq.2⟩]
        · rw [if_neg (fun h => hq ⟨h.2.1, h.2.2⟩), if_neg (fun h => hq ⟨h.2.1, h.2.2⟩)]
      · have h1 : ¬(b ∈ c :: L) := by
          intro h
          rcases List.mem_cons.mp h with h | h
          · exact hbc h
          · exact hmem h
        rw [if_neg (fun h => hmem h.1), if_neg (fun h => h1 h.1)]

/-- Closed form of `_genRelMat` after processing the first `m` rows: every
processed cell holds `relEntry`, everything else is still zero. -/
theorem genRelMat_partial (objList : List Nat) (nodeInds : Nat → ℤ)
    (childLists parentLists : Nat → List ℤ) (m : Nat) :
    ∀ a b,
      ((List.range m).foldl
        (fun M o1 =>
          (List.range objList.length).foldl
            (relStep objList nodeInds childLists parentLists o1) M)
        (fun _ _ => 0)) a b
      = if a < m ∧ b < objList.length
        then relEntry objList nodeInds childLists parentLists a b
        else 0 := by
  induction m with
  | zero => intro a b; simp
  | succ m ih =>
    intro a b
    rw [List.range_succ, List.foldl_append, List.foldl_cons, List.foldl_nil]
    by_cases ham : a = m
    · rw [ham, relStep_foldl_row]
      have hpart : ((List.range m).foldl
          (fun M o1 =>
            (List.range objList.length).foldl
              (relStep objList nodeInds childLists parentLists o1) M)
          (fun _ _ => 0)) m b = 0 := by
        rw [ih m b, if_neg (by omega)]
      rw [hpart]
      by_cases hbn : b < objList.length
      · by_cases hind : nodeInds (objList.getD b 0) = nodeInds (objList.getD m 0)
        · rw [if_neg (fun h => h.2.2 hind), if_pos ⟨Nat.lt_succ_self m, hbn⟩]
          unfold relEntry
          rw [if_pos hind]
        · rw [if_pos ⟨List.mem_range.mpr hbn, rfl, hind⟩, if_pos ⟨Nat.lt_succ_self m, hbn⟩]
          unfold relEntry
          rw [if_neg hind]
      · rw [if_neg (fun h => hbn (List.mem_range.mp h.1)), if_neg (fun h => hbn h.2)]
    · rw [relStep_foldl_off objList nodeInds childLists parentLists m (List.range objList.length)
        _ a b ham, ih a b]
      by_cases hc : a < m ∧ b < objList.length
      · rw [if_pos hc, if_pos ⟨Nat.lt_succ_of_lt hc.1, hc.2⟩]
      · rw [if_neg hc, if_neg (fun h => hc ⟨by omega, h.2⟩)]

/-- Closed form of `_genRelMat`: inside the `num_boxes × num_boxes` region the
matrix equals `relEntry`; outside it is zero. -/
theorem genRelMat_eq (objList : List Nat) (nodeInds : Nat → ℤ)
    (childLists parentLists : Nat → List ℤ) (a b : Nat) :
    genRelMat objList nodeInds childLists parentLists a b
      = if a < objList.length ∧ b < objList.length
        then relEntry objList nodeInds childLists parentLists a b
        else 0 := by
  unfold genRelMat
  exact genRelMat_partial objList nodeInds childLists parentLists objList.length a b

/-- Claim C2 (amended): for consistent child/parent lists in which no two kept
objects are simultaneously each other's children, `_genRelMat` satisfies
`FATHER(i,j) → CHILD(j,i)` over the kept objects, its diagonal is 0, and any
pair with coinciding node indices is left at 0. -/
theorem C2_genRelMat_amended (objList : List Nat) (nodeInds : Nat → ℤ)
    (childLists parentLists : Nat → List ℤ)
    (hcons : ∀ a ∈ objList, ∀ b ∈ objList,
      nodeInds a ∈ childLists b ↔ nodeInds b ∈ parentLists a)
    (hnocyc : ∀ a ∈ objList, ∀ b ∈ objList,
      ¬(nodeInds b ∈ childLists a ∧ nodeInds a ∈ childLists b)) :
    ∀ i j, i < objList.length → j < objList.length →
      (genRelMat objList nodeInds childLists parentLists i j = FATHER →
        genRelMat objList nodeInds childLists parentLists j i = CHILD) ∧
      genRelMat objList nodeInds childLists parentLists i i = 0 ∧
      (nodeInds (objList.getD i 0) = nodeInds (objList.getD j 0) →
        genRelMat objList nodeInds childLists parentLists i j = 0) := by
  intro i j hi hj
  have hmi : objList.getD i 0 ∈ objList := by
    rw [List.getD_eq_getElem objList 0 hi]
    exact List.getElem_mem _
  have hmj : objList.getD j 0 ∈ objList := by
    rw [List.getD_eq_getElem objList 0 hj]
    exact List.getElem_mem _
  refine ⟨?_, ?_, ?_⟩
  · intro hF
    rw [genRelMat_eq, if_pos ⟨hi, hj⟩] at hF
    unfold relEntry at hF
    by_cases hind : nodeInds (objList.getD j 0) = nodeInds (objList.getD i 0)
    · rw [if_pos hind] at hF
      exact absurd hF (by decide)
    · rw [if_neg hind] at hF
      unfold relWrite at hF
      by_cases hch : nodeInds (objList.getD j 0) ∈ childLists (objList.getD i 0)
      · have hpar : nodeInds (objList.getD i 0) ∈ parentLists (objList.getD j 0) :=
          (hcons (objList.getD j 0) hmj (objList.getD i 0) hmi).mp hch
        have hnotch : nodeInds (objList.getD i 0) ∉ childLists (objList.getD j 0) :=
          fun hc => hnocyc (objList.getD i 0) hmi (objList.getD j 0) hmj ⟨hch, hc⟩
        rw [genRelMat_eq, if_pos ⟨hj, hi⟩]
        unfold relEntry
        rw [if_neg (fun h => hind h.symm)]
        unfold relWrite
        rw [if_neg hnotch, if_pos hpar]
      · rw [if_neg hch] at hF
        by_cases hpa : nodeInds (objList.getD j 0) ∈ parentLists (objList.getD i 0)
        · rw [if_pos hpa] at hF
          exact absurd hF (by decide)
        · rw [if_neg hpa] at hF
          exact absurd hF (by decide)
  · rw [genRelMat_eq, if_pos ⟨hi, hi⟩]
    unfold relEntry
    rw [if_pos rfl]
  · intro hind
    rw [genRelMat_eq, if_pos ⟨hi, hj⟩]
    unfold relEntry
    rw [if_pos hind.symm]

/-- Claim C2, counterexample: a mutually consistent two-cycle (each node is
recorded both as child and as parent of the other) makes `_genRelMat` put
`FATHER` at both (0,1) and (1,0), so `FATHER(i,j)` does not imply
`CHILD(j,i)` under the claim's consistency hypothesis alone. -/
theorem C2_genRelMat_counterexample :
    (∀ a ∈ cycObjList, ∀ b ∈ cycObjList,
      cycNodeInds a ∈ cycChildLists b ↔ cycNodeInds b ∈ cycParentLists a) ∧
    0 < cycObjList.length ∧ 1 < cycObjList.length ∧
    genRelMat cycObjList cycNodeInds cycChildLists cycParentLists 0 1 = FATHER ∧
    genRelMat cycObjList cycNodeInds cycChildLists cycParentLists 1 0 = FATHER ∧
    genRelMat cycObjList cycNodeInds cycChildLists cycParentLists 1 0 ≠ CHILD := by
  decide

/-- Witness for the amended claim C2 on a concrete two-object chain. -/
theorem C2_genRelMat_amended_witness :
    ((∀ a ∈ chainObjList, ∀ b ∈ chainObjList,
      chainNodeInds a ∈ chainChildLists b ↔ chainNodeInds b ∈ chainParentLists a) ∧
     (∀ a ∈ chainObjList, ∀ b ∈ chainObjList,
      ¬(chainNodeInds b ∈ chainChildLists a ∧ chainNodeInds a ∈ chainChildLists b))) ∧
    (∀ i j, i < chainObjList.length → j < chainObjList.length →
      (genRelMat chainObjList chainNodeInds chainChildLists chainParentLists i j = FATHER →
        genRelMat chainObjList chainNodeInds chainChildLists chainParentLists j i = CHILD) ∧
      genRelMat chainObjList chainNodeInds chainChildLists chainParentLists i i = 0 ∧
      (chainNodeInds (chainObjList.getD i 0) = chainNodeInds (chainObjList.getD j 0) →
        genRelMat chainObjList chainNodeInds chainChildLists chainParentLists i j = 0)) :=
  ⟨⟨by decide, by decide⟩,
    C2_genRelMat_amended chainObjList chainNodeInds chainChildLists chainParentLists
      (by decide) (by decide)⟩

/-- Claim C8: for `|G| ≤ max_num_grasp`, `_graspPostProcess` reports
`num_grasps = |G|` and pads `G` (unchanged, unfiltered, in order) with zero
rows up to `max_num_grasp` rows; a supplied index vector is padded in
lockstep. -/
theorem C8_graspPostProcess_spec (maxNumGrasp : Nat) (G : List (List ℚ))
    (inds : Option (List ℚ)) (hG : G.length ≤ maxNumGrasp)
    (hinds : ∀ l, inds = some l → l.length = G.length) :
    (graspPostProcess maxNumGrasp G inds).2.1 = G.length ∧
    (graspPostProcess maxNumGrasp G inds).1
      = G ++ List.replicate (maxNumGrasp - G.length) (List.replicate 8 (0 : ℚ)) ∧
    (graspPostProcess maxNumGrasp G inds).1.take G.length = G ∧
    (graspPostProcess maxNumGrasp G inds).1.length = maxNumGrasp ∧
    (∀ l, inds = some l →
      (graspPostProcess maxNumGrasp G inds).2.2
        = some (l ++ List.replicate (maxNumGrasp - G.length) (0 : ℚ))) ∧
    (inds = none → (graspPostProcess maxNumGrasp G inds).2.2 = none) := by
  have hnum : min G.length maxNumGrasp = G.length := Nat.min_eq_left hG
  have htake : G.take (min G.length maxNumGrasp) = G := by
    rw [hnum, List.take_length]
  cases inds with
  | none =>
    refine ⟨?_, ?_, ?_, ?_, ?_, ?_⟩
    · show min G.length maxNumGrasp = G.length
      exact hnum
    · show G.take (min G.length maxNumGrasp)
          ++ List.replicate (maxNumGrasp - min G.length maxNumGrasp) (List.replicate 8 (0 : ℚ))
        = G ++ List.replicate (maxNumGrasp - G.length) (List.replicate 8 (0 : ℚ))
      rw [htake, hnum]
    · show (G.take (min G.length maxNumGrasp)
          ++ List.replicate (maxNumGrasp - min G.length maxNumGrasp)
              (List.replicate 8 (0 : ℚ))).take G.length
        = G
      rw [htake, hnum]
      have := List.take_left G (List.replicate (maxNumGrasp - G.length) (List.replicate 8 (0 : ℚ)))
      exact this
    · show (G.take (min G.length maxNumGrasp)
          ++ List.replicate (maxNumGrasp - min G.length maxNumGrasp)
              (List.replicate 8 (0 : ℚ))).length = maxNumGrasp
      rw [htake, hnum, List.length_append, List.length_replicate]
      omega
    · intro l hl
      exact absurd hl (by simp)
    · intro _
      rfl
  | some ind =>
    have hlen : ind.length = G.length := hinds ind rfl
    have htakeInd : ind.take (min G.length maxNumGrasp) = ind := by
      rw [hnum, ← hlen, List.take_length]
    refine ⟨?_, ?_, ?_, ?_, ?_, ?_⟩
    · show min G.length maxNumGrasp = G.length
      exact hnum
    · show G.take (min G.length maxNumGrasp)
          ++ List.replicate (maxNumGrasp - min G.length maxNumGrasp) (List.replicate 8 (0 : ℚ))
        = G ++ List.replicate (maxNumGrasp - G.length) (List.replicate 8 (0 : ℚ))
      rw [htake, hnum]
    · show (G.take (min G.length maxNumGrasp)
          ++ List.replicate (maxNumGrasp - min G.length maxNumGrasp)
              (List.replicate 8 (0 : ℚ))).take G.length
        = G
      rw [htake, hnum]
      exact List.take_left G _
    · show (G.take (min G.length maxNumGrasp)
          ++ List.replicate (maxNumGrasp - min G.length maxNumGrasp)
              (List.replicate 8 (0 : ℚ))).length = maxNumGrasp
      rw [htake, hnum, List.length_append, List.length_replicate]
      omega
    · intro l hl
      have : ind = l := by injection hl
      subst this
      show some (ind.take (min G.length maxNumGrasp)
          ++ List.replicate (maxNumGrasp - min G.length maxNumGrasp) (0 : ℚ))
        = some (ind ++ List.replicate (maxNumGrasp - G.length) (0 : ℚ))
      rw [htakeInd, hnum]
    · intro h
      exact absurd h (by simp)

/-- Witness for claim C8 on a single concrete grasp with an index vector. -/
theorem C8_graspPostProcess_witness :
    (([[(1 : ℚ), 2, 3, 4, 5, 6, 7, 8]] : List (List ℚ)).length ≤ 3 ∧
      (∀ l, (some [(5 : ℚ)] : Option (List ℚ)) = some l →
        l.length = ([[(1 : ℚ), 2, 3, 4, 5, 6, 7, 8]] : List (List ℚ)).length)) ∧
    ((graspPostProcess 3 [[(1 : ℚ), 2, 3, 4, 5, 6, 7, 8]] (some [(5 : ℚ)])).2.1
        = ([[(1 : ℚ), 2, 3, 4, 5, 6, 7, 8]] : List (List ℚ)).length ∧
      (graspPostProcess 3 [[(1 : ℚ), 2, 3, 4, 5, 6, 7, 8]] (some [(5 : ℚ)])).1
        = [[(1 : ℚ), 2, 3, 4, 5, 6, 7, 8]]
          ++ List.replicate (3 - ([[(1 : ℚ), 2, 3, 4, 5, 6, 7, 8]] : List (List ℚ)).length)
              (List.replicate 8 (0 : ℚ)) ∧
      (graspPostProcess 3 [[(1 : ℚ), 2, 3, 4, 5, 6, 7, 8]] (some [(5 : ℚ)])).1.take
          ([[(1 : ℚ), 2, 3, 4, 5, 6, 7, 8]] : List (List ℚ)).length
        = [[(1 : ℚ), 2, 3, 4, 5, 6, 7, 8]] ∧
      (graspPostProcess 3 [[(1 : ℚ), 2, 3, 4, 5, 6, 7, 8]] (some [(5 : ℚ)])).1.length = 3 ∧
      (∀ l, (some [(5 : ℚ)] : Option (List ℚ)) = some l →
        (graspPostProcess 3 [[(1 : ℚ), 2, 3, 4, 5, 6, 7, 8]] (some [(5 : ℚ)])).2.2
          = some (l ++ List.replicate
              (3 - ([[(1 : ℚ), 2, 3, 4, 5, 6, 7, 8]] : List (List ℚ)).length) (0 : ℚ))) ∧
      ((some [(5 : ℚ)] : Option (List ℚ)) = none →
        (graspPostProcess 3 [[(1 : ℚ), 2, 3, 4, 5, 6, 7, 8]] (some [(5 : ℚ)])).2.2 = none)) :=
  ⟨⟨by decide, fun l hl => by injection hl with h2; rw [← h2]; rfl⟩,
    C8_graspPostProcess_spec 3 [[(1 : ℚ), 2, 3, 4, 5, 6, 7, 8]] (some [(5 : ℚ)])
      (by decide) (fun l hl => by injection hl with h2; rw [← h2]; rfl)⟩

/-- Claim C6: with `target_ratio == 1`, `_paddingImage` performs no padding: it
returns the top-left square crop of side `trim_size = min(H, W)` and sets both
`im_info` height and width to `trim_size`. -/
theorem C6_paddingImage_ratio_one (data : List (List Pix)) (info : ImInfo)
    (hrect : ∀ r ∈ data, r.length = (data.headD []).length) :
    paddingImage data info 1
      = some ((data.take (min data.length (data.headD []).length)).map
            (fun r => r.take (min data.length (data.headD []).length)),
          { info with
              h := ((min data.length (data.headD []).length : ℕ) : ℚ)
              w := ((min data.length (data.headD []).length : ℕ) : ℚ) }) ∧
    (∀ out, paddingImage data info 1 = some out →
      out.1.length = min data.length (data.headD []).length ∧
      (∀ r ∈ out.1, r.length = min data.length (data.headD []).length) ∧
      out.2.h = ((min data.length (data.headD []).length : ℕ) : ℚ) ∧
      out.2.w = ((min data.length (data.headD []).length : ℕ) : ℚ)) := by
  have hbranch : paddingImage data info 1
      = some ((data.take (min data.length (data.headD []).length)).map
            (fun r => r.take (min data.length (data.headD []).length)),
          { info with
              h := ((min data.length (data.headD []).length : ℕ) : ℚ)
              w := ((min data.length (data.headD []).length : ℕ) : ℚ) }) := by
    unfold paddingImage
    rw [if_neg (by norm_num), if_neg (by norm_num)]
  refine ⟨hbranch, ?_⟩
  intro out hout
  rw [hbranch] at hout
  have hout' := Option.some.inj hout
  rw [← hout']
  refine ⟨?_, ?_, rfl, rfl⟩
  · rw [List.length_map, List.length_take]
    exact Nat.min_eq_left (Nat.min_le_left _ _)
  · intro r hr
    rcases List.mem_map.mp hr with ⟨r0, hr0, hr0eq⟩
    rw [← hr0eq, List.length_take]
    have hr0mem : r0 ∈ data := (List.take_sublist _ _).subset hr0
    rw [hrect r0 hr0mem]
    exact Nat.min_eq_left (Nat.min_le_right _ _)

/-- Witness for claim C6: a 100×60 image is cropped to its top-left 60×60
square and `im_info` becomes (60, 60). -/
theorem C6_paddingImage_witness :
    (∀ r ∈ List.replicate 100 (List.replicate 60 zeroPix),
      r.length = ((List.replicate 100 (List.replicate 60 zeroPix)).headD []).length) ∧
    paddingImage (List.replicate 100 (List.replicate 60 zeroPix)) (ImInfo.mk 100 60 1 1) 1
      = some (List.replicate 60 (List.replicate 60 zeroPix), ImInfo.mk 60 60 1 1) := by
  have hr : ∀ r ∈ List.replicate 100 (List.replicate 60 zeroPix),
      r.length = ((List.replicate 100 (List.replicate 60 zeroPix)).headD []).length := by
    intro r hrm
    rw [List.eq_of_mem_replicate hrm]
    rfl
  refine ⟨hr, ?_⟩
  have h := (C6_paddingImage_ratio_one (List.replicate 100 (List.replicate 60 zeroPix))
    (ImInfo.mk 100 60 1 1) hr).1
  rw [h]
  have h1 : (List.replicate 100 (List.replicate 60 zeroPix)).length = 100 := by simp
  have h2 : ((List.replicate 100 (List.replicate 60 zeroPix)).headD []).length = 60 := rfl
  rw [h1, h2]
  norm_num [List.take_replicate, List.map_replicate]

/-- `setRangeFrom` preserves the list length. -/
theorem setRangeFrom_length (i a b : Nat) (v : ℚ) (l : List ℚ) :
    (setRangeFrom i a b v l).length = l.length := by
  induction l generalizing i with
  | nil => rfl
  | cons x xs ih =>
    unfold setRangeFrom
    rw [List.length_cons, List.length_cons, ih]

/-- Entrywise value of `setRangeFrom`. -/
theorem setRangeFrom_getD (i a b : Nat) (v : ℚ) (l : List ℚ) (k : Nat) :
    (setRangeFrom i a b v l).getD k 0
      = if a ≤ i + k ∧ i + k ≤ b ∧ k < l.length then v else l.getD k 0 := by
  induction l generalizing i k with
  | nil =>
    unfold setRangeFrom
    rw [if_neg (by intro h; exact absurd h.2.2 (by simp))]
  | cons x xs ih =>
    cases k with
    | zero =>
      unfold setRangeFrom
      rw [List.getD_cons_zero, List.getD_cons_zero]
      by_cases hc : a ≤ i ∧ i ≤ b
      · rw [if_pos hc, if_pos ⟨by omega, by omega, by simp⟩]
      · rw [if_neg hc, if_neg (fun h => hc ⟨by omega, by omega⟩)]
    | succ n =>
      unfold setRangeFrom
      rw [List.getD_cons_succ, List.getD_cons_succ, ih (i + 1) n]
      by_cases hc : a ≤ i + 1 + n ∧ i + 1 + n ≤ b ∧ n < xs.length
      · rw [if_pos hc, if_pos ⟨by omega, by omega, by simpa using hc.2.2⟩]
      · rw [if_neg hc, if_neg (fun h => hc ⟨by omega, by omega, by simpa using h.2.2⟩)]

/-- `setRange` preserves the list length. -/
theorem setRange_length (l : List ℚ) (a b : Nat) (v : ℚ) :
    (setRange l a b v).length = l.length := setRangeFrom_length 0 a b v l

/-- Entrywise value of the slice assignment `setRange`. -/
theorem setRange_getD (l : List ℚ) (a b : Nat) (v : ℚ) (k : Nat) :
    (setRange l a b v).getD k 0
      = if a ≤ k ∧ k ≤ b ∧ k < l.length then v else l.getD k 0 := by
  unfold setRange
  rw [setRangeFrom_getD]
  rw [Nat.zero_add]

/-- `getD` on an all-zero tensor is zero. -/
theorem getD_replicate_zero (n k : Nat) : (List.replicate n (0 : ℚ)).getD k 0 = 0 := by
  by_cases h : k < n
  · rw [List.getD_eq_getElem _ _ (by simpa using h), List.getElem_replicate]
  · rw [List.getD_eq_default _ _ (by simpa using h)]

/-- Length of the partially built ratio batch plan. -/
theorem ratioListBatch_partial_length (rl : List ℚ) (bs m : Nat) :
    ((List.range m).foldl
      (fun acc i =>
        setRange acc (i * bs) (min ((i + 1) * bs - 1) (rl.length - 1))
          (if rl.getD (min ((i + 1) * bs - 1) (rl.length - 1)) 0 < 1 then rl.getD (i * bs) 0
           else if 1 < rl.getD (i * bs) 0 then rl.getD (min ((i + 1) * bs - 1) (rl.length - 1)) 0
           else 1))
      (List.replicate rl.length 0)).length = rl.length := by
  induction m with
  | zero => simp
  | succ m ih =>
    rw [List.range_succ, List.foldl_append, List.foldl_cons, List.foldl_nil, setRange_length, ih]

/-- Entrywise value of the partially built ratio batch plan: an index holds its
chunk's target ratio once its chunk has been processed, and 0 before. -/
theorem ratioListBatch_partial_getD (rl : List ℚ) (bs : Nat) (hbs : 0 < bs) (m : Nat) :
    ∀ k, k < rl.length →
      ((List.range m).foldl
        (fun acc i =>
          setRange acc (i * bs) (min ((i + 1) * bs - 1) (rl.length - 1))
            (if rl.getD (min ((i + 1) * bs - 1) (rl.length - 1)) 0 < 1 then rl.getD (i * bs) 0
             else if 1 < rl.getD (i * bs) 0 then rl.getD (min ((i + 1) * bs - 1) (rl.length - 1)) 0
             else 1))
        (List.replicate rl.length 0)).getD k 0
      = if k / bs < m then chunkTarget rl bs (k / bs) else 0 := by
  induction m with
  | zero =>
    intro k hk
    rw [List.range_zero, List.foldl_nil, getD_replicate_zero, if_neg (Nat.not_lt_zero _)]
  | succ m ih =>
    intro k hk
    rw [List.range_succ, List.foldl_append, List.foldl_cons, List.foldl_nil, setRange_getD,
      ratioListBatch_partial_length]
    by_cases hm : k / bs = m
    · have hleft : m * bs ≤ k := by
        rw [← hm]
        exact Nat.div_mul_le_self k bs
      have h1 : k < (m + 1) * bs := by
        rw [← hm]
        exact (Nat.div_lt_iff_lt_mul hbs).mp (Nat.lt_succ_self _)
      have hright : k ≤ min ((m + 1) * bs - 1) (rl.length - 1) :=
        Nat.le_min.mpr ⟨Nat.le_pred_of_lt h1, Nat.le_pred_of_lt hk⟩
      have hlt : k / bs < m + 1 := by omega
      rw [if_pos ⟨hleft, hright, hk⟩, if_pos hlt, hm]
      rfl
    · have hnot : ¬(m * bs ≤ k ∧ k ≤ min ((m + 1) * bs - 1) (rl.length - 1) ∧ k < rl.length) := by
        intro h
        apply hm
        have h1 : m ≤ k / bs := (Nat.le_div_iff_mul_le hbs).mpr h.1
        have hmin : min ((m + 1) * bs - 1) (rl.length - 1) ≤ (m + 1) * bs - 1 :=
          Nat.min_le_left _ _
        have hpos : 0 < (m + 1) * bs := Nat.mul_pos (Nat.succ_pos m) hbs
        have h21 : k ≤ (m + 1) * bs - 1 := le_trans h.2.1 hmin
        have h2 : k < (m + 1) * bs := by omega
        have h3 : k / bs < m + 1 := Nat.div_lt_of_lt_mul (by rw [Nat.mul_comm]; exact h2)
        omega
      rw [if_neg hnot, ih k hk]
      by_cases hlt : k / bs < m
      · have hlt' : k / bs < m + 1 := by omega
        rw [if_pos hlt, if_pos hlt']
      · have hlt' : ¬ k / bs < m + 1 := by omega
        rw [if_neg hlt, if_neg hlt']

/-- Claim C7: the precomputed batch plan gives every index `k` the single
target ratio of its contiguous chunk `k / batch_size`: the chunk's leftmost
ratio when its rightmost ratio is < 1, its rightmost ratio when its leftmost
ratio is > 1, and exactly 1 otherwise. -/
theorem C7_ratioListBatch_spec (rl : List ℚ) (ratioIndexLen bs : Nat)
    (hlen : ratioIndexLen = rl.length) (hbs : 0 < bs)
    (hsorted : List.Pairwise (· ≤ ·) rl) :
    ∀ k, k < rl.length →
      (ratioListBatch rl ratioIndexLen bs).getD k 0 = chunkTarget rl bs (k / bs) ∧
      (rl.getD (min ((k / bs + 1) * bs - 1) (rl.length - 1)) 0 < 1 →
        (ratioListBatch rl ratioIndexLen bs).getD k 0 = rl.getD (k / bs * bs) 0) ∧
      (1 < rl.getD (k / bs * bs) 0 →
        (ratioListBatch rl ratioIndexLen bs).getD k 0
          = rl.getD (min ((k / bs + 1) * bs - 1) (rl.length - 1)) 0) ∧
      (¬ rl.getD (min ((k / bs + 1) * bs - 1) (rl.length - 1)) 0 < 1 →
        ¬ 1 < rl.getD (k / bs * bs) 0 →
        (ratioListBatch rl ratioIndexLen bs).getD k 0 = 1) := by
  subst hlen
  intro k hk
  have hd := Nat.div_add_mod (rl.length + bs - 1) bs
  have hmod : (rl.length + bs - 1) % bs < bs := Nat.mod_lt _ hbs
  have hp : rl.length ≤ bs * ((rl.length + bs - 1) / bs) := by omega
  have hq : k / bs < (rl.length + bs - 1) / bs :=
    Nat.div_lt_of_lt_mul (lt_of_lt_of_le hk hp)
  have hmain : (ratioListBatch rl rl.length bs).getD k 0 = chunkTarget rl bs (k / bs) := by
    have h := ratioListBatch_partial_getD rl bs hbs ((rl.length + bs - 1) / bs) k hk
    rw [if_pos hq] at h
    exact h
  have hct : chunkTarget rl bs (k / bs)
      = if rl.getD (min ((k / bs + 1) * bs - 1) (rl.length - 1)) 0 < 1
        then rl.getD (k / bs * bs) 0
        else if 1 < rl.getD (k / bs * bs) 0
          then rl.getD (min ((k / bs + 1) * bs - 1) (rl.length - 1)) 0
          else 1 := rfl
  have hsle : ∀ p q, p ≤ q → q < rl.length → rl.getD p 0 ≤ rl.getD q 0 := by
    intro p q hpq hqlt
    rcases Nat.eq_or_lt_of_le hpq with heq | hlt
    · rw [heq]
    · rw [List.getD_eq_getElem _ _ (lt_of_le_of_lt hpq hqlt), List.getD_eq_getElem _ _ hqlt]
      exact List.pairwise_iff_getElem.mp hsorted p q _ _ hlt
  have hple : k / bs * bs ≤ k := Nat.div_mul_le_self k bs
  have hkq : k < (k / bs + 1) * bs := (Nat.div_lt_iff_lt_mul hbs).mp (Nat.lt_succ_self _)
  have hqle : k / bs * bs ≤ min ((k / bs + 1) * bs - 1) (rl.length - 1) :=
    Nat.le_min.mpr ⟨by omega, by omega⟩
  have hqlt : min ((k / bs + 1) * bs - 1) (rl.length - 1) < rl.length := by
    have := Nat.min_le_right ((k / bs + 1) * bs - 1) (rl.length - 1)
    omega
  have hLR : rl.getD (k / bs * bs) 0
      ≤ rl.getD (min ((k / bs + 1) * bs - 1) (rl.length - 1)) 0 :=
    hsle _ _ hqle hqlt
  refine ⟨hmain, ?_, ?_, ?_⟩
  · intro hR
    rw [hmain, hct, if_pos hR]
  · intro hL
    rw [hmain, hct, if_neg (not_lt.mpr (le_of_lt (lt_of_lt_of_le hL hLR))), if_pos hL]
  · intro hnR hnL
    rw [hmain, hct, if_neg hnR, if_neg hnL]

/-- Witness for claim C7 on a concrete sorted ratio list with batch size 2. -/
theorem C7_ratioListBatch_witness :
    ((4 : Nat) = [(2 : ℚ), 3, 4, 5].length ∧ (0 : Nat) < 2 ∧
      List.Pairwise (· ≤ ·) [(2 : ℚ), 3, 4, 5]) ∧
    (∀ k, k < [(2 : ℚ), 3, 4, 5].length →
      (ratioListBatch [(2 : ℚ), 3, 4, 5] 4 2).getD k 0
        = chunkTarget [(2 : ℚ), 3, 4, 5] 2 (k / 2) ∧
      ([(2 : ℚ), 3, 4, 5].getD
          (min ((k / 2 + 1) * 2 - 1) ([(2 : ℚ), 3, 4, 5].length - 1)) 0 < 1 →
        (ratioListBatch [(2 : ℚ), 3, 4, 5] 4 2).getD k 0
          = [(2 : ℚ), 3, 4, 5].getD (k / 2 * 2) 0) ∧
      (1 < [(2 : ℚ), 3, 4, 5].getD (k / 2 * 2) 0 →
        (ratioListBatch [(2 : ℚ), 3, 4, 5] 4 2).getD k 0
          = [(2 : ℚ), 3, 4, 5].getD
              (min ((k / 2 + 1) * 2 - 1) ([(2 : ℚ), 3, 4, 5].length - 1)) 0) ∧
      (¬ [(2 : ℚ), 3, 4, 5].getD
          (min ((k / 2 + 1) * 2 - 1) ([(2 : ℚ), 3, 4, 5].length - 1)) 0 < 1 →
        ¬ 1 < [(2 : ℚ), 3, 4, 5].getD (k / 2 * 2) 0 →
        (ratioListBatch [(2 : ℚ), 3, 4, 5] 4 2).getD k 0 = 1)) :=
  ⟨⟨rfl, by decide, by decide⟩,
    C7_ratioListBatch_spec [(2 : ℚ), 3, 4, 5] 4 2 rfl (by decide) (by decide)⟩

/-- Membership in a python `range(a, b)`. -/
theorem mem_intRange {a b x : ℤ} : x ∈ intRange a b ↔ a ≤ x ∧ x < b := by
  unfold intRange
  rw [List.mem_map]
  constructor
  · rintro ⟨k, hk, rfl⟩
    rw [List.mem_range] at hk
    simp only [Int.ofNat_eq_natCast]
    omega
  · intro h
    refine ⟨(x - a).toNat, ?_, by simp only [Int.ofNat_eq_natCast]; omega⟩
    rw [List.mem_range]
    omega

/-- Length of a python `range(a, b)`. -/
theorem intRange_length (a b : ℤ) : (intRange a b).length = (b - a).toNat := by
  unfold intRange
  rw [List.length_map, List.length_range]

/-- A nonempty python `range(a, b)`. -/
theorem intRange_not_isEmpty {a b : ℤ} (h : a < b) : (intRange a b).isEmpty = false := by
  cases hr : intRange a b with
  | nil =>
    exfalso
    have hl := intRange_length a b
    rw [hr] at hl
    simp at hl
    omega
  | cons x xs => rfl

/-- A nonempty python `range(a, b)` is not the empty list. -/
theorem intRange_ne_nil {a b : ℤ} (h : a < b) : intRange a b ≠ [] := by
  intro hr
  have hl := intRange_length a b
  rw [hr] at hl
  simp at hl
  omega

/-- Claim C3 (amended): in the random branch (`box_region < trim_size`,
`min_c > 0`), provided the annotation fits the image (`max_c < dimLen`), the
offset is drawn uniformly from the half-open integer range
`[max(max_c - trim_size, 0), min(min_c, dimLen - trim_size))`, except that when
the two bounds coincide that single value is used without randomness; every
offset the code can choose keeps the crop window inside the image and starts
at or before `min_c` (but, unlike the claim, the window may cut off `max_c`,
and the topmost valid start is never drawn). -/
theorem C3_cropOffset_amended (minC maxC trimSize dimLen : ℤ)
    (h0 : 0 < minC) (hmm : minC ≤ maxC) (hreg : maxC - minC + 1 < trimSize)
    (htd : trimSize ≤ dimLen) (hmd : maxC < dimLen) :
    cropOffsetChoices minC maxC trimSize dimLen
      = Except.ok (if max (maxC - trimSize) 0 = min minC (dimLen - trimSize)
          then [max (maxC - trimSize) 0]
          else intRange (max (maxC - trimSize) 0) (min minC (dimLen - trimSize))) ∧
    (∀ offs, cropOffsetChoices minC maxC trimSize dimLen = Except.ok offs →
      offs ≠ [] ∧ ∀ s ∈ offs, 0 ≤ s ∧ s + trimSize ≤ dimLen ∧ s ≤ minC) := by
  have hcase : maxC - minC + 1 - trimSize < 0 := by omega
  have hA1 : maxC - trimSize ≤ minC := by omega
  have hA2 : maxC - trimSize ≤ dimLen - trimSize := by omega
  have hA3 : (0 : ℤ) ≤ minC := le_of_lt h0
  have hA4 : (0 : ℤ) ≤ dimLen - trimSize := by omega
  have hle : max (maxC - trimSize) 0 ≤ min minC (dimLen - trimSize) :=
    max_le (le_min hA1 hA2) (le_min hA3 hA4)
  have hmain : cropOffsetChoices minC maxC trimSize dimLen
      = Except.ok (if max (maxC - trimSize) 0 = min minC (dimLen - trimSize)
          then [max (maxC - trimSize) 0]
          else intRange (max (maxC - trimSize) 0) (min minC (dimLen - trimSize))) := by
    unfold cropOffsetChoices
    rw [if_pos h0, if_pos hcase]
    by_cases heq : max (maxC - trimSize) 0 = min minC (dimLen - trimSize)
    · rw [if_pos heq, if_pos heq]
    · have hlt : max (maxC - trimSize) 0 < min minC (dimLen - trimSize) :=
        lt_of_le_of_ne hle heq
      have hne : ¬((intRange (max (maxC - trimSize) 0)
          (min minC (dimLen - trimSize))).isEmpty = true) := by
        rw [intRange_not_isEmpty hlt]
        simp
      rw [if_neg heq, if_neg hne, if_neg heq]
  refine ⟨hmain, ?_⟩
  intro offs hoffs
  rw [hmain] at hoffs
  have hoffs' := Except.ok.inj hoffs
  have hminC : min minC (dimLen - trimSize) ≤ minC := min_le_left _ _
  have hmindim : min minC (dimLen - trimSize) ≤ dimLen - trimSize := min_le_right _ _
  have hmax0 : (0 : ℤ) ≤ max (maxC - trimSize) 0 := le_max_right _ _
  by_cases heq : max (maxC - trimSize) 0 = min minC (dimLen - trimSize)
  · rw [if_pos heq] at hoffs'
    rw [← hoffs']
    refine ⟨by simp, ?_⟩
    intro s hs
    rw [List.mem_singleton] at hs
    subst hs
    refine ⟨hmax0, by omega, by omega⟩
  · have hlt : max (maxC - trimSize) 0 < min minC (dimLen - trimSize) :=
      lt_of_le_of_ne hle heq
    rw [if_neg heq] at hoffs'
    rw [← hoffs']
    refine ⟨intRange_ne_nil hlt, ?_⟩
    intro s hs
    have := mem_intRange.mp hs
    exact ⟨by omega, by omega, by omega⟩

/-- Claim C3, counterexample: with `min_c = 4`, `max_c = 6`, `trim_size = 5`,
image length 10, the valid starts are `{2, 3, 4}` but the code draws uniformly
from `{1, 2, 3}`; the chooseable offset 1 gives the window `[1, 5]`, which
does not contain `max_c = 6`, and the valid start 4 is never drawn. -/
theorem C3_cropOffset_counterexample :
    ((0 : ℤ) < 4 ∧ (4 : ℤ) ≤ 6 ∧ (6 : ℤ) - 4 + 1 < 5 ∧ (5 : ℤ) ≤ 10 ∧ (6 : ℤ) < 10) ∧
    cropOffsetChoices 4 6 5 10 = Except.ok [1, 2, 3] ∧
    validStarts 4 6 5 10 = [2, 3, 4] ∧
    cropOffsetChoices 4 6 5 10 ≠ Except.ok (validStarts 4 6 5 10) ∧
    ((1 : ℤ) ∈ [(1 : ℤ), 2, 3] ∧ ¬((1 : ℤ) ≤ 4 ∧ (6 : ℤ) ≤ 1 + 5 - 1)) := by decide

/-- Witness for the amended claim C3 at the counterexample's input. -/
theorem C3_cropOffset_amended_witness :
    ((0 : ℤ) < 4 ∧ (4 : ℤ) ≤ 6 ∧ (6 : ℤ) - 4 + 1 < 5 ∧ (5 : ℤ) ≤ 10 ∧ (6 : ℤ) < 10) ∧
    (cropOffsetChoices 4 6 5 10
      = Except.ok (if max ((6 : ℤ) - 5) 0 = min 4 ((10 : ℤ) - 5)
          then [max ((6 : ℤ) - 5) 0]
          else intRange (max ((6 : ℤ) - 5) 0) (min 4 ((10 : ℤ) - 5))) ∧
     (∀ offs, cropOffsetChoices 4 6 5 10 = Except.ok offs →
        offs ≠ [] ∧ ∀ s ∈ offs, 0 ≤ s ∧ s + 5 ≤ 10 ∧ s ≤ 4)) :=
  ⟨⟨by decide, by decide, by decide, by decide, by decide⟩,
    C3_cropOffset_amended 4 6 5 10 (by decide) (by decide) (by decide) (by decide) (by decide)⟩

/-- Claim C4 (amended): in the centering branch (`box_region ≥ trim_size`,
`min_c > 0`), when the halved excess `y_s_add = (box_region - trim_size)/2`
is 0 the offset is `min_c` deterministically, but when `y_s_add > 0` the
offset is drawn uniformly at random from `{min_c, …, min_c + y_s_add - 1}`:
the crop is not centered (the centered offset `min_c + y_s_add` itself is
never chosen) and the branch is randomized. -/
theorem C4_cropOffset_amended (minC maxC trimSize dimLen : ℤ)
    (h0 : 0 < minC) (hreg : ¬(maxC - minC + 1 - trimSize < 0)) :
    cropOffsetChoices minC maxC trimSize dimLen
      = Except.ok (if Int.tdiv (maxC - minC + 1 - trimSize) 2 = 0
          then [minC]
          else intRange minC (minC + Int.tdiv (maxC - minC + 1 - trimSize) 2)) ∧
    (∀ offs, cropOffsetChoices minC maxC trimSize dimLen = Except.ok offs →
      offs ≠ [] ∧
      (Int.tdiv (maxC - minC + 1 - trimSize) 2 = 0 → offs = [minC]) ∧
      ∀ s ∈ offs, minC ≤ s ∧ s ≤ minC + Int.tdiv (maxC - minC + 1 - trimSize) 2 ∧
        (Int.tdiv (maxC - minC + 1 - trimSize) 2 ≠ 0 →
          s < minC + Int.tdiv (maxC - minC + 1 - trimSize) 2)) := by
  have hnn : (0 : ℤ) ≤ Int.tdiv (maxC - minC + 1 - trimSize) 2 :=
    Int.tdiv_nonneg (by omega) (by norm_num)
  have hmain : cropOffsetChoices minC maxC trimSize dimLen
      = Except.ok (if Int.tdiv (maxC - minC + 1 - trimSize) 2 = 0
          then [minC]
          else intRange minC (minC + Int.tdiv (maxC - minC + 1 - trimSize) 2)) := by
    unfold cropOffsetChoices
    rw [if_pos h0, if_neg hreg]
    by_cases hz : Int.tdiv (maxC - minC + 1 - trimSize) 2 = 0
    · rw [if_pos hz, if_pos hz]
    · have hpos : 0 < Int.tdiv (maxC - minC + 1 - trimSize) 2 := lt_of_le_of_ne hnn (Ne.symm hz)
      have hne : ¬((intRange minC
          (minC + Int.tdiv (maxC - minC + 1 - trimSize) 2)).isEmpty = true) := by
        rw [intRange_not_isEmpty (by omega)]
        simp
      rw [if_neg hz, if_neg hne, if_neg hz]
  refine ⟨hmain, ?_⟩
  intro offs hoffs
  rw [hmain] at hoffs
  have hoffs' := Except.ok.inj hoffs
  by_cases hz : Int.tdiv (maxC - minC + 1 - trimSize) 2 = 0
  · rw [if_pos hz] at hoffs'
    rw [← hoffs']
    refine ⟨by simp, fun _ => rfl, ?_⟩
    intro s hs
    rw [List.mem_singleton] at hs
    subst hs
    exact ⟨le_refl _, by omega, fun hc => absurd hz hc⟩
  · have hpos : 0 < Int.tdiv (maxC - minC + 1 - trimSize) 2 := lt_of_le_of_ne hnn (Ne.symm hz)
    rw [if_neg hz] at hoffs'
    rw [← hoffs']
    refine ⟨intRange_ne_nil (by omega), fun hc => absurd hc hz, ?_⟩
    intro s hs
    have := mem_intRange.mp hs
    exact ⟨by omega, by omega, fun _ => by omega⟩

/-- Claim C4, counterexample: with `min_c = 2`, `max_c = 6`, `trim_size = 3`
(excess 2, halved excess 1) the code deterministically uses offset 2, not the
claimed centered offset `min_c + 1 = 3`; and with `max_c = 8` (halved excess
2) the branch is randomized over the two offsets `{2, 3}`, contradicting "no
randomness involved in this branch". -/
theorem C4_cropOffset_counterexample :
    ((0 : ℤ) < 2 ∧ ¬((6 : ℤ) - 2 + 1 - 3 < 0)) ∧
    Int.tdiv ((6 : ℤ) - 2 + 1 - 3) 2 = 1 ∧
    cropOffsetChoices 2 6 3 10 = Except.ok [2] ∧
    cropOffsetChoices 2 6 3 10 ≠ Except.ok [2 + Int.tdiv ((6 : ℤ) - 2 + 1 - 3) 2] ∧
    cropOffsetChoices 2 8 3 10 = Except.ok [2, 3] := by decide

/-- Witness for the amended claim C4 at the counterexample's input. -/
theorem C4_cropOffset_amended_witness :
    ((0 : ℤ) < 2 ∧ ¬((6 : ℤ) - 2 + 1 - 3 < 0)) ∧
    (cropOffsetChoices 2 6 3 10
      = Except.ok (if Int.tdiv ((6 : ℤ) - 2 + 1 - 3) 2 = 0
          then [2]
          else intRange 2 (2 + Int.tdiv ((6 : ℤ) - 2 + 1 - 3) 2)) ∧
     (∀ offs, cropOffsetChoices 2 6 3 10 = Except.ok offs →
        offs ≠ [] ∧
        (Int.tdiv ((6 : ℤ) - 2 + 1 - 3) 2 = 0 → offs = [2]) ∧
        ∀ s ∈ offs, 2 ≤ s ∧ s ≤ 2 + Int.tdiv ((6 : ℤ) - 2 + 1 - 3) 2 ∧
          (Int.tdiv ((6 : ℤ) - 2 + 1 - 3) 2 ≠ 0 →
            s < 2 + Int.tdiv ((6 : ℤ) - 2 + 1 - 3) 2))) :=
  ⟨⟨by decide, by decide⟩,
    C4_cropOffset_amended 2 6 3 10 (by decide) (by decide)⟩

/-- The clamped trim size never exceeds the height. -/
theorem trimH_le (data : List (List Pix)) (r : ℚ) : trimH data r ≤ (data.length : ℤ) := by
  unfold trimH
  split
  · exact le_refl _
  · omega

/-- The clamped trim size never exceeds the width. -/
theorem trimW_le (data : List (List Pix)) (r : ℚ) :
    trimW data r ≤ ((data.headD []).length : ℤ) := by
  unfold trimW
  split
  · exact le_refl _
  · omega

/-- On a negative minimum coordinate the offset logic raises the
`RuntimeError`. -/
theorem cropOffsetChoices_err_of_neg (minC maxC trimSize dimLen : ℤ) (h : minC < 0) :
    cropOffsetChoices minC maxC trimSize dimLen = Except.error CropErr.negCoord := by
  unfold cropOffsetChoices
  rw [if_neg (by omega), if_pos h]

/-- With the annotation extrema inside the image, a nonnegative minimum
coordinate always yields a nonempty list of offsets (no error of any kind). -/
theorem cropOffsetChoices_ok_of_nonneg (minC maxC trimSize dimLen : ℤ)
    (h0 : 0 ≤ minC) (hmm2 : minC ≤ maxC) (htd : trimSize ≤ dimLen) (hmd : maxC < dimLen) :
    ∃ offs, cropOffsetChoices minC maxC trimSize dimLen = Except.ok offs ∧ offs ≠ [] := by
  unfold cropOffsetChoices
  by_cases hpos : 0 < minC
  · rw [if_pos hpos]
    by_cases hreg : maxC - minC + 1 - trimSize < 0
    · rw [if_pos hreg]
      have hle : max (maxC - trimSize) 0 ≤ min minC (dimLen - trimSize) :=
        max_le (le_min (by omega) (by omega)) (le_min (by omega) (by omega))
      by_cases heq : max (maxC - trimSize) 0 = min minC (dimLen - trimSize)
      · rw [if_pos heq]
        exact ⟨_, rfl, by simp⟩
      · have hlt : max (maxC - trimSize) 0 < min minC (dimLen - trimSize) :=
          lt_of_le_of_ne hle heq
        rw [if_neg heq, if_neg (by rw [intRange_not_isEmpty hlt]; simp)]
        exact ⟨_, rfl, intRange_ne_nil hlt⟩
    · rw [if_neg hreg]
      have hnn : (0 : ℤ) ≤ Int.tdiv (maxC - minC + 1 - trimSize) 2 :=
        Int.tdiv_nonneg (by omega) (by norm_num)
      by_cases hz : Int.tdiv (maxC - minC + 1 - trimSize) 2 = 0
      · rw [if_pos hz]
        exact ⟨_, rfl, by simp⟩
      · have hpos2 : (0 : ℤ) < Int.tdiv (maxC - minC + 1 - trimSize) 2 :=
          lt_of_le_of_ne hnn (Ne.symm hz)
        rw [if_neg hz, if_neg (by rw [intRange_not_isEmpty (by omega)]; simp)]
        exact ⟨_, rfl, intRange_ne_nil (by omega)⟩
  · rw [if_neg hpos, if_neg (by omega)]
    exact ⟨[0], rfl, by simp⟩

/-- Claim C9 (amended): provided the annotation extrema along the cropped axis
lie inside the image (`min_c ≤ max_c < axis length`), `_cropImage` raises
exactly when `min_c < 0` — the fatal `RuntimeError` — and for `min_c ≥ 0` it
completes with at least one (cropped image, offset) outcome.  (Without the
`max_c < axis length` proviso the code can also raise `np.random.choice`'s
error on an empty range, see the counterexample.) -/
theorem C9_cropImage_amended (data : List (List Pix)) (annots : List (List ℚ))
    (targetRatio : ℚ)
    (hy : targetRatio < 1 →
      qtrunc (listMin (sliceCoords 1 annots)) ≤ qtrunc (listMax (sliceCoords 1 annots)) ∧
      qtrunc (listMax (sliceCoords 1 annots)) < (data.length : ℤ))
    (hx : ¬targetRatio < 1 →
      qtrunc (listMin (sliceCoords 0 annots)) ≤ qtrunc (listMax (sliceCoords 0 annots)) ∧
      qtrunc (listMax (sliceCoords 0 annots)) < ((data.headD []).length : ℤ)) :
    ((targetRatio < 1 ∧ qtrunc (listMin (sliceCoords 1 annots)) < 0) ∨
        (¬targetRatio < 1 ∧ qtrunc (listMin (sliceCoords 0 annots)) < 0) →
      cropImage data annots targetRatio = Except.error CropErr.negCoord) ∧
    ((targetRatio < 1 ∧ 0 ≤ qtrunc (listMin (sliceCoords 1 annots))) ∨
        (¬targetRatio < 1 ∧ 0 ≤ qtrunc (listMin (sliceCoords 0 annots))) →
      ∃ outs, cropImage data annots targetRatio = Except.ok outs ∧ outs ≠ []) := by
  constructor
  · rintro (⟨hr, hneg⟩ | ⟨hr, hneg⟩)
    · unfold cropImage
      rw [if_pos hr, cropOffsetChoices_err_of_neg _ _ _ _ hneg]
      rfl
    · unfold cropImage
      rw [if_neg hr, cropOffsetChoices_err_of_neg _ _ _ _ hneg]
      rfl
  · rintro (⟨hr, hnn⟩ | ⟨hr, hnn⟩)
    · obtain ⟨hle, hin⟩ := hy hr
      obtain ⟨offs, hok, hne⟩ := cropOffsetChoices_ok_of_nonneg
        (qtrunc (listMin (sliceCoords 1 annots))) (qtrunc (listMax (sliceCoords 1 annots)))
        (trimH data targetRatio) (data.length : ℤ) hnn hle (trimH_le data targetRatio) hin
      refine ⟨offs.map (fun yS =>
        ((data.drop yS.toNat).take (trimH data targetRatio).toNat, ((0 : ℤ), yS))), ?_, ?_⟩
      · unfold cropImage
        rw [if_pos hr, hok]
        rfl
      · simp [hne]
    · obtain ⟨hle, hin⟩ := hx hr
      obtain ⟨offs, hok, hne⟩ := cropOffsetChoices_ok_of_nonneg
        (qtrunc (listMin (sliceCoords 0 annots))) (qtrunc (listMax (sliceCoords 0 annots)))
        (trimW data targetRatio) ((data.headD []).length : ℤ) hnn hle
        (trimW_le data targetRatio) hin
      refine ⟨offs.map (fun xS =>
        (data.map (fun r => (r.drop xS.toNat).take (trimW data targetRatio).toNat),
          (xS, (0 : ℤ)))), ?_, ?_⟩
      · unfold cropImage
        rw [if_neg hr, hok]
        rfl
      · simp [hne]

/-- Claim C9, counterexample: on a 10×6 image with target ratio 3/4 (trim size
8) and a single annotation row with y-extrema 7 and 12, the minimum coordinate
is 7 ≥ 0, yet `_cropImage` raises: `np.random.choice` is called on the empty
`range(4, 2)` because the annotation extends below the image. -/
theorem C9_cropImage_counterexample :
    mkRat 3 4 < 1 ∧
    qtrunc (listMin (sliceCoords 1 [[1, 7, 2, 12, 1]])) = 7 ∧
    (0 : ℤ) ≤ 7 ∧
    cropImage (List.replicate 10 (List.replicate 6 zeroPix)) [[1, 7, 2, 12, 1]] (mkRat 3 4)
      = Except.error CropErr.emptyRange := by
  have hH : (List.replicate 10 (List.replicate 6 zeroPix)).length = 10 := rfl
  have hW : ((List.replicate 10 (List.replicate 6 zeroPix)).headD []).length = 6 := rfl
  have hdiv : ((6 : ℕ) : ℚ) / mkRat 3 4 = 8 := by
    rw [Rat.mkRat_eq_div]
    norm_num
  have ht : trimH (List.replicate 10 (List.replicate 6 zeroPix)) (mkRat 3 4) = 8 := by
    unfold trimH
    rw [hH, hW, hdiv]
    decide
  refine ⟨by decide, by decide, by decide, ?_⟩
  unfold cropImage
  rw [if_pos (by decide : mkRat 3 4 < 1), ht]
  rfl

/-- Witness for the amended claim C9: a 4×2 image cropped at ratio 1/2 with an
in-bounds annotation; the hypotheses hold and the claim applies. -/
theorem C9_cropImage_amended_witness :
    ((mkRat 1 2 < 1 →
      qtrunc (listMin (sliceCoords 1 [[0, 1, 1, 2, 9]]))
        ≤ qtrunc (listMax (sliceCoords 1 [[0, 1, 1, 2, 9]])) ∧
      qtrunc (listMax (sliceCoords 1 [[0, 1, 1, 2, 9]]))
        < ((List.replicate 4 (List.replicate 2 zeroPix)).length : ℤ)) ∧
     (¬mkRat 1 2 < 1 →
      qtrunc (listMin (sliceCoords 0 [[0, 1, 1, 2, 9]]))
        ≤ qtrunc (listMax (sliceCoords 0 [[0, 1, 1, 2, 9]])) ∧
      qtrunc (listMax (sliceCoords 0 [[0, 1, 1, 2, 9]]))
        < (((List.replicate 4 (List.replicate 2 zeroPix)).headD []).length : ℤ))) ∧
    (((mkRat 1 2 < 1 ∧ 0 ≤ qtrunc (listMin (sliceCoords 1 [[0, 1, 1, 2, 9]]))) ∨
        (¬mkRat 1 2 < 1 ∧ 0 ≤ qtrunc (listMin (sliceCoords 0 [[0, 1, 1, 2, 9]])))) ∧
      ∃ outs, cropImage (List.replicate 4 (List.replicate 2 zeroPix)) [[0, 1, 1, 2, 9]]
          (mkRat 1 2) = Except.ok outs ∧ outs ≠ []) :=
  ⟨⟨by decide, by decide⟩,
    ⟨Or.inl ⟨by decide, by decide⟩,
      (C9_cropImage_amended (List.replicate 4 (List.replicate 2 zeroPix)) [[0, 1, 1, 2, 9]]
          (mkRat 1 2) (by decide) (by decide)).2
        (Or.inl ⟨by decide, by decide⟩)⟩⟩

/-- Claim C10: when the minimum annotation coordinate along the cropped axis
is exactly 0, `_cropImage` performs no offset computation at all: the offset
deterministically stays 0 (a single outcome, no randomness) and the image is
cropped to `[0, trim_size)` along that axis, whatever the annotation span and
the relation between `box_region` and `trim_size`. -/
theorem C10_cropImage_min_zero (data : List (List Pix)) (annots : List (List ℚ))
    (targetRatio : ℚ) :
    (targetRatio < 1 → qtrunc (listMin (sliceCoords 1 annots)) = 0 →
      cropImage data annots targetRatio
        = Except.ok [(data.take (trimH data targetRatio).toNat, ((0 : ℤ), (0 : ℤ)))]) ∧
    (¬targetRatio < 1 → qtrunc (listMin (sliceCoords 0 annots)) = 0 →
      cropImage data annots targetRatio
        = Except.ok [(data.map (fun r => r.take (trimW data targetRatio).toNat),
            ((0 : ℤ), (0 : ℤ)))]) := by
  constructor
  · intro hr h0
    unfold cropImage
    rw [if_pos hr, h0]
    have hoc : cropOffsetChoices 0 (qtrunc (listMax (sliceCoords 1 annots)))
        (trimH data targetRatio) (data.length : ℤ) = Except.ok [0] := by
      unfold cropOffsetChoices
      rw [if_neg (by omega), if_neg (by omega)]
    rw [hoc]
    rfl
  · intro hr h0
    unfold cropImage
    rw [if_neg hr, h0]
    have hoc : cropOffsetChoices 0 (qtrunc (listMax (sliceCoords 0 annots)))
        (trimW data targetRatio) (((data.headD []).length : ℕ) : ℤ) = Except.ok [0] := by
      unfold cropOffsetChoices
      rw [if_neg (by omega), if_neg (by omega)]
    rw [hoc]
    rfl

/-- Witness for claim C10: a 4×2 image at ratio 1/2, one annotation row whose
minimum y-coordinate is exactly 0: the single outcome is the top `trim_size`
rows with offset (0, 0). -/
theorem C10_cropImage_min_zero_witness :
    (mkRat 1 2 < 1 ∧ qtrunc (listMin (sliceCoords 1 [[0, 0, 1, 1, 9]])) = 0) ∧
    cropImage (List.replicate 4 (List.replicate 2 zeroPix)) [[0, 0, 1, 1, 9]] (mkRat 1 2)
      = Except.ok [((List.replicate 4 (List.replicate 2 zeroPix)).take
            (trimH (List.replicate 4 (List.replicate 2 zeroPix)) (mkRat 1 2)).toNat,
          ((0 : ℤ), (0 : ℤ)))] :=
  ⟨⟨by decide, by decide⟩,
    (C10_cropImage_min_zero (List.replicate 4 (List.replicate 2 zeroPix)) [[0, 0, 1, 1, 9]]
        (mkRat 1 2)).1 (by decide) (by decide)⟩

/-- Claim C5, behaviour of `_cropGrasp` at the failing input (code bug): on a
10×10 image with crop offset `(x_s, y_s) = (0, 5)`, the 8-column grasp rows
`[2,6,3,6,2,8,3,8]` and `[2,6,3,6,2,8,3,12]` should — per the claim — have all
four y-coordinates shifted by 5 and both be kept (as `[2,1,3,1,2,3,3,3]` and
`[2,1,3,1,2,3,3,7]`).  Instead, `[:, :-1][:, 1::2]` misses the last column, so
y4 is never shifted: the first grasp is kept with the stale `y4 = 8`, and the
second is dropped entirely because its unshifted `y4 = 12` fails the bounds
test. -/
theorem C5_cropGrasp_code_eval :
    (cropGrasp (List.replicate 10 (List.replicate 10 zeroPix)) ((0 : ℤ), (5 : ℤ))
        [[2, 6, 3, 6, 2, 8, 3, 8], [2, 6, 3, 6, 2, 8, 3, 12]] none).1
      = [[2, 1, 3, 1, 2, 3, 3, 8]] ∧
    ([[(2 : ℚ), 1, 3, 1, 2, 3, 3, 8]] : List (List ℚ))
      ≠ [[2, 1, 3, 1, 2, 3, 3, 3], [2, 1, 3, 1, 2, 3, 3, 7]] := by
  constructor
  · have hshift1 : shiftRow 0 ((0 : ℤ) : ℚ)
        (shiftRow 1 ((5 : ℤ) : ℚ) [2, 6, 3, 6, 2, 8, 3, 8])
        = [2, 1, 3, 1, 2, 3, 3, 8] := by
      norm_num [shiftRow, shiftRowFrom]
    have hshift2 : shiftRow 0 ((0 : ℤ) : ℚ)
        (shiftRow 1 ((5 : ℤ) : ℚ) [2, 6, 3, 6, 2, 8, 3, 12])
        = [2, 1, 3, 1, 2, 3, 3, 12] := by
      norm_num [shiftRow, shiftRowFrom]
    have hkeep1 : graspKeep 10 10 [2, 1, 3, 1, 2, 3, 3, 8] = true := by
      norm_num [graspKeep, countInside]
    have hkeep2 : graspKeep 10 10 [2, 1, 3, 1, 2, 3, 3, 12] = false := by
      norm_num [graspKeep, countInside]
    show ((([[2, 6, 3, 6, 2, 8, 3, 8], [2, 6, 3, 6, 2, 8, 3, 12]] : List (List ℚ)).map
        (fun row => shiftRow 0 ((0 : ℤ) : ℚ) (shiftRow 1 ((5 : ℤ) : ℚ) row))).zip
          ((([[2, 6, 3, 6, 2, 8, 3, 8], [2, 6, 3, 6, 2, 8, 3, 12]] : List (List ℚ)).map
            (fun row => shiftRow 0 ((0 : ℤ) : ℚ) (shiftRow 1 ((5 : ℤ) : ℚ) row))).map
              (graspKeep (List.replicate 10 (List.replicate 10 zeroPix)).length
                ((List.replicate 10 (List.replicate 10 zeroPix)).headD []).length))).filterMap
        (fun p => if p.2 then some p.1 else none)
      = [[2, 1, 3, 1, 2, 3, 3, 8]]
    rw [List.map_cons, List.map_cons, List.map_nil, hshift1, hshift2]
    have hH : (List.replicate 10 (List.replicate 10 zeroPix)).length = 10 := rfl
    have hW : ((List.replicate 10 (List.replicate 10 zeroPix)).headD []).length = 10 := rfl
    rw [hH, hW, List.map_cons, List.map_cons, List.map_nil, hkeep1, hkeep2]
    rfl
  · decide
